import Mathlib

/-
Verification development for the TP2-SIM random-variate generation and
statistics application (React frontend + FastAPI backend).

The frontend components (DistributionForm.jsx and its variants) are embedded
directly from the repository sources.  The backend engine (offset-addressable
stream, sampler, histogram builder, goodness-of-fit tester) is declared only
through its interface (backend README, spec sections 4.1-4.5); those parts are
modelled from the spec, as marked in each doc comment.
-/

namespace TP2

/-- Closed tagged variant of the three supported distributions with their
parameter shapes (spec section 6: uniform -> A,B; exponential -> media;
normal -> media, desviacion).  Parameters are rationals, idealizing the JSON
numbers exchanged at the boundary. -/
inductive DistParams where
  | uniforme (A B : ℚ)
  | exponencial (media : ℚ)
  | normal (media desviacion : ℚ)
deriving DecidableEq

/-- Counter mixing function underlying the stream. -/
def mix (seed i : ℕ) : ℕ :=
  (seed * 2654435761 + i * 40503 + 2654435769) % 4294967296

/-- Modelled from the spec: section 4.2's offset-addressable stream
`draw(seed, index) -> u in [0,1)`, a pure function of `(seed, index)` with no
mutable state.  The backend implementation is not part of the repository
sources, so a concrete counter-based construction (as section 9 prescribes)
stands in for it. -/
def draw (seed i : ℕ) : ℚ :=
  (mix seed i : ℚ) / 4294967296

theorem draw_nonneg (seed i : ℕ) : 0 ≤ draw seed i := by
  unfold draw
  positivity

theorem draw_lt_one (seed i : ℕ) : draw seed i < 1 := by
  unfold draw
  rw [div_lt_one (by norm_num)]
  have h : mix seed i < 4294967296 := Nat.mod_lt _ (by norm_num)
  exact_mod_cast h

/-- Modelled from the spec: section 4.1's variate transform.  `u` is the
primary uniform draw, `v` the secondary draw consumed only by the normal
(Box-Muller) branch.  The exponential uses the inverse-CDF method
`-media * ln(1-u)`, which is nonnegative for `u` in `[0,1)`. -/
noncomputable def transform (d : DistParams) (u v : ℝ) : ℝ :=
  match d with
  | .uniforme A B => A + u * ((B : ℝ) - A)
  | .exponencial media => -(media : ℝ) * Real.log (1 - u)
  | .normal media desviacion =>
      (media : ℝ) + desviacion * (Real.sqrt (-2 * Real.log (1 - u)) * Real.cos (2 * Real.pi * v))

/-- Modelled from the spec: the value at logical index `i` of the sequence for
a given seed.  Per section 4.2, the normal distribution consumes stream indices
`2i` and `2i+1` for output index `i`; the other two consume index `i`. -/
noncomputable def valueAt (d : DistParams) (seed i : ℕ) : ℝ :=
  match d with
  | .normal _ _ => transform d ((draw seed (2 * i) : ℚ) : ℝ) ((draw seed (2 * i + 1) : ℚ) : ℝ)
  | _ => transform d ((draw seed i : ℚ) : ℝ) 0

/-- A generation request after validation: distribution with params, the count
`n`, and the (echoed) seed (spec section 3, GenerationRequest). -/
structure GenerationRequest where
  dist : DistParams
  n : ℕ
  seed : ℕ

/-- Modelled from the spec: section 4.3's sampler
`generatePage(request, skip, limit) -> values for indices [skip, min(skip+limit, n))`. -/
noncomputable def generatePage (req : GenerationRequest) (skip limit : ℕ) : List ℝ :=
  (List.range' skip (min (skip + limit) req.n - skip)).map (valueAt req.dist req.seed)

theorem generatePage_length (req : GenerationRequest) (skip limit : ℕ) :
    (generatePage req skip limit).length = min limit (req.n - skip) := by
  unfold generatePage
  rw [List.length_map, List.length_range']
  omega

/-- C1: for every request and every split point `m ≤ n`, the page `[0,m)`
followed by the page `[m, n)` is exactly the full page `[0,n)`: later page
requests with `skip = startIndex` (as the frontend incremental loader issues
them) reproduce the values a single full-range request would have produced. -/
theorem pages_concat (req : GenerationRequest) (m : ℕ) (hm : m ≤ req.n) :
    generatePage req 0 m ++ generatePage req m (req.n - m) = generatePage req 0 req.n := by
  unfold generatePage
  have h1 : min (0 + m) req.n - 0 = m := by omega
  have h2 : min (m + (req.n - m)) req.n - m = req.n - m := by omega
  have h3 : min (0 + req.n) req.n - 0 = req.n := by omega
  rw [h1, h2, h3, ← List.map_append]
  congr 1
  have := List.range'_append 0 m (req.n - m) 1
  simp only [Nat.one_mul, Nat.zero_add] at this
  rw [this]
  congr 1
  omega

/-- C1 witness: concrete instance at a uniform request with `n = 4`, `m = 2`. -/
theorem pages_concat_witness :
    generatePage ⟨.uniforme 0 1, 4, 42⟩ 0 2 ++ generatePage ⟨.uniforme 0 1, 4, 42⟩ 2 2 =
      generatePage ⟨.uniforme 0 1, 4, 42⟩ 0 4 := by
  have h := pages_concat ⟨.uniforme 0 1, 4, 42⟩ 2 (by norm_num)
  simpa using h

/-- C4: the page for `(skip, limit)` always has length `min(limit, n - skip)`
(truncated subtraction plays the role of `max(n - skip, 0)`), it is empty --
not an error -- when `skip ≥ n`, and its `j`-th element is the value at logical
index `skip + j`, i.e. exactly the values at indices `[skip, min(skip+limit,n))`. -/
theorem generatePage_window (req : GenerationRequest) (skip limit : ℕ) :
    (generatePage req skip limit).length = min limit (req.n - skip)
    ∧ (req.n ≤ skip → generatePage req skip limit = [])
    ∧ ∀ j (hj : j < (generatePage req skip limit).length),
        (generatePage req skip limit).get ⟨j, hj⟩ = valueAt req.dist req.seed (skip + j) := by
  refine ⟨generatePage_length req skip limit, ?_, ?_⟩
  · intro hle
    have : (generatePage req skip limit).length = 0 := by
      rw [generatePage_length]; omega
    exact List.length_eq_zero.mp this
  · intro j hj
    unfold generatePage at hj ⊢
    simp only [List.get_eq_getElem, List.getElem_map, List.getElem_range']
    ring_nf

/-- C4 witness: concrete instances -- a page past the end (`skip = 7 ≥ n = 4`)
is empty, and an overlong page is truncated to the remaining indices. -/
theorem generatePage_window_witness :
    generatePage ⟨.exponencial 2, 4, 7⟩ 7 5 = []
    ∧ (generatePage ⟨.exponencial 2, 4, 7⟩ 2 5).length = 2 := by
  refine ⟨(generatePage_window ⟨.exponencial 2, 4, 7⟩ 7 5).2.1 (by norm_num), ?_⟩
  rw [(generatePage_window ⟨.exponencial 2, 4, 7⟩ 2 5).1]
  norm_num

/-! Request validation (spec sections 4.1, 4.3 and 7). -/

/-- Error taxonomy of spec section 7 (the cases the claims are about). -/
inductive GenError where
  | domainError (msg : String)
  | rangeError (msg : String)
deriving DecidableEq

/-- Modelled from the spec: the domain constraints of section 4.1
(A < B for uniform; media > 0 for exponential; desviacion > 0 for normal). -/
def checkParams : DistParams → Bool
  | .uniforme A B => decide (A < B)
  | .exponencial media => decide (0 < media)
  | .normal _ desviacion => decide (0 < desviacion)

/-- Modelled from the spec: section 4.3 rejects `n` outside `[1, 1000000]` or
non-integer `n`.  The raw request field is a rational (a JSON number); it is an
integer exactly when its reduced denominator is 1. -/
def checkN (nRaw : ℚ) : Bool :=
  nRaw.den == 1 && decide (1 ≤ nRaw) && decide (nRaw ≤ 1000000)

/-- Modelled from the spec: the sampler entry point with its failure behavior
(section 4.3): requests whose params fail the section 4.1 domain constraints
are rejected with a domain error, requests with invalid `n` with a range
error; otherwise the page is produced. -/
noncomputable def generate (d : DistParams) (nRaw : ℚ) (seed skip limit : ℕ) :
    Except GenError (List ℝ) :=
  if checkParams d then
    if checkN nRaw then
      Except.ok (generatePage ⟨d, nRaw.num.toNat, seed⟩ skip limit)
    else
      Except.error (.rangeError "n debe ser un entero entre 1 y 1000000")
  else
    Except.error (.domainError "parametros fuera de dominio")

/-! Frontend form embedding, from
src/frontend-react/src/components/DistributionForm.jsx.  Field values of the
numeric inputs are modelled as `Option ℚ`: `none` is the empty string, `some q`
a numeric string with value `q`; `numOf` is JS `Number` on such a value. -/

def numOf : Option ℚ → ℚ
  | none => 0
  | some q => q

/-- The form state used by `canSubmit`, `handleSubmit` and the chart code. -/
structure FormState where
  distribution : String
  count : String
  A : Option ℚ
  B : Option ℚ
  media : Option ℚ
  desviacion : Option ℚ

/-- From source (DistributionForm.jsx, isIntegerString): the test
for the regular expression of an optionally-signed decimal integer. -/
def isIntegerString (s : String) : Bool :=
  match s.data with
  | [] => false
  | c :: cs =>
      if c = '-' then !cs.isEmpty && cs.all (fun d => d.isDigit)
      else (c :: cs).all (fun d => d.isDigit)

def digitVal (c : Char) : ℕ := c.toNat - 48

def natOfDigits (cs : List Char) : ℕ :=
  cs.foldl (fun a c => a * 10 + digitVal c) 0

/-- JS `Number` restricted to strings accepted by `isIntegerString`. -/
def jsNumber (s : String) : ℤ :=
  match s.data with
  | '-' :: cs => -(natOfDigits cs : ℤ)
  | cs => (natOfDigits cs : ℤ)

/-- From source (DistributionForm.jsx lines 27-47, canSubmit): the submit
guard.  The count must be an integer string with value in `[1, 1000000]`; then
per distribution: uniform needs both bounds present and `A < B`, exponential
needs `media` present and positive, normal needs both fields present and
`desviacion` positive. -/
def canSubmit (st : FormState) : Bool :=
  if !isIntegerString st.count || jsNumber st.count < 1 || 1000000 < jsNumber st.count then
    false
  else if st.distribution = "uniforme" then
    match st.A, st.B with
    | some a, some b => decide (a < b)
    | _, _ => false
  else if st.distribution = "exponencial" then
    match st.media with
    | some m => decide (0 < m)
    | none => false
  else if st.distribution = "normal" then
    match st.media, st.desviacion with
    | some _, some s => decide (0 < s)
    | _, _ => false
  else false

/-- The payload `handleSubmit` posts to /api/generate (DistributionForm.jsx
lines 56-66): `n = Number(count)` and params shaped by the selected
distribution. -/
structure Payload where
  distribucion : String
  n : ℤ
  params : DistParams

/-- From source (DistributionForm.jsx, handleSubmit payload construction). -/
def mkPayload (st : FormState) : Payload :=
  { distribucion := st.distribution
    n := jsNumber st.count
    params :=
      if st.distribution = "uniforme" then .uniforme (numOf st.A) (numOf st.B)
      else if st.distribution = "exponencial" then .exponencial (numOf st.media)
      else .normal (numOf st.media) (numOf st.desviacion) }

/-- C2: a uniform request with `A ≥ B` is rejected by the engine with a domain
error (so it produces no values), and the form guard `canSubmit` is false for
such parameters, so `handleSubmit` never posts the request. -/
theorem uniform_domain_error (A B nRaw : ℚ) (seed skip limit : ℕ)
    (cnt : String) (mm dd : Option ℚ) (hAB : B ≤ A) :
    generate (.uniforme A B) nRaw seed skip limit =
      Except.error (.domainError "parametros fuera de dominio")
    ∧ canSubmit ⟨"uniforme", cnt, some A, some B, mm, dd⟩ = false := by
  have hcp : checkParams (.uniforme A B) = false := by
    simp [checkParams, not_lt.mpr hAB]
  constructor
  · unfold generate
    rw [if_neg (by simp [hcp])]
  · unfold canSubmit
    split
    · rfl
    · rw [if_pos rfl]
      simp [not_lt.mpr hAB]

/-- C2 witness: concrete instance `A = 2, B = 1`. -/
theorem uniform_domain_error_witness :
    generate (.uniforme 2 1) 10 0 0 10 =
      Except.error (.domainError "parametros fuera de dominio")
    ∧ canSubmit ⟨"uniforme", "10", some 2, some 1, none, none⟩ = false :=
  uniform_domain_error 2 1 10 0 0 10 "10" none none (by norm_num)

/-- C3: the sampler rejects every request whose `n` is not an integer or lies
outside `[1, 1000000]`, and likewise every request whose params violate the
distribution's domain constraints: the result is an error, so no sample is
produced. -/
theorem invalid_n_rejected (d : DistParams) (nRaw : ℚ) (seed skip limit : ℕ)
    (h : nRaw.den ≠ 1 ∨ nRaw < 1 ∨ 1000000 < nRaw ∨ checkParams d = false) :
    ∃ e, generate d nRaw seed skip limit = Except.error e := by
  unfold generate
  rcases Bool.eq_false_or_eq_true (checkParams d) with hp | hp
  · have hn : checkN nRaw = false := by
      unfold checkN
      rcases h with h | h | h | h
      · simp [h]
      · simp [not_le.mpr h]
      · simp [not_le.mpr h]
      · rw [hp] at h
        exact absurd h (by simp)
    exact ⟨_, by rw [if_pos hp, if_neg (by simp [hn])]⟩
  · exact ⟨_, by rw [if_neg (by simp [hp])]⟩

/-- C3 witness: concrete instance `n = 0 < 1`. -/
theorem invalid_n_rejected_witness :
    ∃ e, generate (.uniforme 0 1) 0 0 0 5 = Except.error e :=
  invalid_n_rejected (.uniforme 0 1) 0 0 0 5 (Or.inr (Or.inl (by norm_num)))

/-- C9: whenever `canSubmit` is true, the payload `handleSubmit` posts
satisfies the engine preconditions: `n` passes the integer/range check and the
params pass the selected distribution's domain check -- so every posted request
is accepted by the engine's validation. -/
theorem payload_preconditions (st : FormState) (h : canSubmit st = true) :
    checkN (((mkPayload st).n : ℤ) : ℚ) = true
    ∧ checkParams (mkPayload st).params = true := by
  unfold canSubmit at h
  split at h
  · exact absurd h (by simp)
  · rename_i hcond
    have hc : isIntegerString st.count = true
        ∧ 1 ≤ jsNumber st.count ∧ jsNumber st.count ≤ 1000000 := by
      constructor
      · by_contra hx
        exact hcond (by simp [Bool.not_eq_true] at hx ⊢; simp [hx])
      constructor
      · by_contra hx
        exact hcond (by simp at hx ⊢; omega)
      · by_contra hx
        exact hcond (by simp at hx ⊢; omega)
    have hn : checkN (((mkPayload st).n : ℤ) : ℚ) = true := by
      unfold checkN mkPayload
      simp only [Rat.den_intCast, beq_self_eq_true, Bool.true_and, Bool.and_eq_true,
        decide_eq_true_eq]
      constructor
      · exact_mod_cast hc.2.1
      · exact_mod_cast hc.2.2
    refine ⟨hn, ?_⟩
    unfold mkPayload
    split at h
    · rename_i hu
      simp only [if_pos hu]
      cases hA : st.A with
      | none => rw [hA] at h; exact absurd h (by simp)
      | some a =>
        cases hB : st.B with
        | none => rw [hA, hB] at h; exact absurd h (by simp)
        | some b =>
          rw [hA, hB] at h
          simpa [checkParams, numOf, hA, hB] using h
    · split at h
      · rename_i hu he
        simp only [if_neg hu, if_pos he]
        cases hM : st.media with
        | none => rw [hM] at h; exact absurd h (by simp)
        | some m =>
          rw [hM] at h
          simpa [checkParams, numOf, hM] using h
      · split at h
        · rename_i hu he hno
          simp only [if_neg hu, if_neg he]
          cases hM : st.media with
          | none => rw [hM] at h; exact absurd h (by simp)
          | some m =>
            cases hD : st.desviacion with
            | none => rw [hM, hD] at h; exact absurd h (by simp)
            | some s =>
              rw [hM, hD] at h
              simpa [checkParams, numOf, hD] using h
        · exact absurd h (by simp)

/-- C9 witness: concrete form state (uniform, count "10", A = 0 < B = 1). -/
theorem payload_preconditions_witness :
    checkN (((mkPayload ⟨"uniforme", "10", some 0, some 1, some 1, some 1⟩).n : ℤ) : ℚ) = true
    ∧ checkParams (mkPayload ⟨"uniforme", "10", some 0, some 1, some 1, some 1⟩).params = true :=
  payload_preconditions _ (by decide)

/-! Boundary number formatting, from src/unnamed/part_001 lines 301-305 and
1110-1114 (the `fmt` helper): round to 4 decimals, print integers without
decimals and other values with exactly 4 decimal digits. -/

/-- JS `Math.round`: half-up rounding towards positive infinity. -/
def jsRound (x : ℚ) : ℤ := ⌊x + 1 / 2⌋

/-- The character for a decimal digit `d < 10`. -/
def digitChar (d : ℕ) : Char := Char.ofNat (48 + d)

/-- Decimal digit list of a natural number (most significant first),
as produced by JS `String`. -/
def natDigits (n : ℕ) : List Char :=
  if _h : n < 10 then [digitChar n]
  else natDigits (n / 10) ++ [digitChar (n % 10)]
  termination_by n
  decreasing_by exact Nat.div_lt_self (by omega) (by omega)

/-- JS `String` on an integer value. -/
def intStr (z : ℤ) : String :=
  (if z < 0 then "-" else "") ++ String.mk (natDigits z.natAbs)

/-- The 4 fraction digits `toFixed(4)` prints for a fractional part
`m < 10000` (zero padded). -/
def pad4 (m : ℕ) : String :=
  String.mk [digitChar (m / 1000 % 10), digitChar (m / 100 % 10),
    digitChar (m / 10 % 10), digitChar (m % 10)]

/-- From source (part_001, fmt): `r = Math.round(v*10000)/10000`, then
`Number.isInteger(r) ? String(r) : r.toFixed(4)`.  `Number.isInteger` on a
rational is the denominator-1 test; `toFixed(4)` prints the sign, the integer
part of the absolute value, and the 4 zero-padded fraction digits. -/
def fmt (v : ℚ) : String :=
  let m := jsRound (v * 10000)
  let r : ℚ := (m : ℚ) / 10000
  if r.den = 1 then intStr r.num
  else (if m < 0 then "-" else "") ++ String.mk (natDigits (m.natAbs / 10000)) ++ "." ++
    pad4 (m.natAbs % 10000)

theorem natDigits_ne_dot (n : ℕ) : ∀ c ∈ natDigits n, c ≠ '.' := by
  induction n using Nat.strong_induction_on with
  | _ n ih =>
    intro c hc
    rw [natDigits] at hc
    split at hc
    · rename_i h
      simp only [List.mem_singleton] at hc
      subst hc
      interval_cases n <;> decide
    · rename_i h
      rcases List.mem_append.mp hc with hc | hc
      · exact ih (n / 10) (Nat.div_lt_self (by omega) (by omega)) c hc
      · simp only [List.mem_singleton] at hc
        subst hc
        have : n % 10 < 10 := Nat.mod_lt _ (by omega)
        interval_cases hmod : n % 10 <;> simp [hmod] <;> decide

/-- The rounded value `m/10000` is an integer exactly when `10000` divides `m`. -/
theorem round4_den_eq_one_iff (m : ℤ) : ((m : ℚ) / 10000).den = 1 ↔ (10000 : ℤ) ∣ m := by
  rw [Rat.den_eq_one_iff]
  constructor
  · intro h
    have h4 : ((m : ℚ) / 10000).num * 10000 = m := by
      have := h
      field_simp at this
      exact_mod_cast this
    exact ⟨((m : ℚ) / 10000).num, by omega⟩
  · rintro ⟨c, rfl⟩
    have hv : ((10000 * c : ℤ) : ℚ) / 10000 = (c : ℚ) := by
      push_cast
      ring
    rw [hv, Rat.num_intCast]

theorem digitChar_ne_dot (d : ℕ) (hd : d < 10) : digitChar d ≠ '.' := by
  interval_cases d <;> decide

/-- C8: the boundary formatter prints the value rounded to 4 decimal places,
`r = round(v*10000)/10000`: the `Number.isInteger(r)` branch fires exactly when
`10000` divides the rounded numerator, in which case the output is the plain
decimal integer string (no dot anywhere); otherwise the output splits around a
single dot with exactly 4 fraction digits. -/
theorem fmt_spec (v : ℚ) :
    ((10000 : ℤ) ∣ jsRound (v * 10000) ↔ ((jsRound (v * 10000) : ℚ) / 10000).den = 1)
    ∧ (((jsRound (v * 10000) : ℚ) / 10000).den = 1 →
        fmt v = intStr (jsRound (v * 10000) / 10000) ∧ '.' ∉ (fmt v).data)
    ∧ (((jsRound (v * 10000) : ℚ) / 10000).den ≠ 1 →
        ∃ p q : String, fmt v = p ++ "." ++ q ∧ q.length = 4 ∧ '.' ∉ q.data) := by
  set m := jsRound (v * 10000) with hm
  refine ⟨(round4_den_eq_one_iff m).symm, ?_, ?_⟩
  · intro hden
    obtain ⟨c, hc⟩ := (round4_den_eq_one_iff m).mp hden
    have hnum : ((m : ℚ) / 10000).num = m / 10000 := by
      rw [hc, Int.mul_ediv_cancel_left _ (by norm_num)]
      have hv : ((10000 * c : ℤ) : ℚ) / 10000 = (c : ℚ) := by
        push_cast
        ring
      rw [hv, Rat.num_intCast]
    have hfmt : fmt v = intStr (m / 10000) := by
      unfold fmt
      rw [← hm, if_pos hden, hnum]
    refine ⟨hfmt, ?_⟩
    rw [hfmt]
    unfold intStr
    intro hdot
    simp only [String.data_append] at hdot
    rcases List.mem_append.mp hdot with hdot | hdot
    · split at hdot <;> simp_all
    · exact natDigits_ne_dot _ _ hdot rfl
  · intro hden
    refine ⟨(if m < 0 then "-" else "") ++ String.mk (natDigits (m.natAbs / 10000)),
      pad4 (m.natAbs % 10000), ?_, ?_, ?_⟩
    · unfold fmt
      rw [← hm, if_neg hden]
    · rfl
    · unfold pad4
      intro hdot
      simp only [String.mk, List.mem_cons, List.not_mem_nil, or_false] at hdot
      rcases hdot with h | h | h | h <;>
        exact absurd h.symm (digitChar_ne_dot _ (Nat.mod_lt _ (by omega)))

/-- C8 witness: `v = 1/8` rounds to `0.125`, not an integer, so the output has
a dot and exactly 4 fraction digits; `v = 3` is an integer and prints bare. -/
theorem fmt_spec_witness :
    (∃ p q : String, fmt (1 / 8) = p ++ "." ++ q ∧ q.length = 4 ∧ '.' ∉ q.data)
    ∧ (fmt 3 = intStr (jsRound ((3 : ℚ) * 10000) / 10000) ∧ '.' ∉ (fmt 3).data) := by
  constructor
  · refine (fmt_spec (1 / 8)).2.2 ?_
    have h1 : jsRound ((1 : ℚ) / 8 * 10000) = 1250 := by
      unfold jsRound
      norm_num
    rw [h1]
    norm_num
  · refine (fmt_spec 3).2.1 ?_
    have h1 : jsRound ((3 : ℚ) * 10000) = 30000 := by
      unfold jsRound
      norm_num
    rw [h1]
    norm_num

/-! Chart scaling helpers, from
src/frontend-react/src/components/DistributionForm.jsx lines 93-103 (niceMax)
and lines 311-312 (maxF / yMax). -/

/-- From source (DistributionForm.jsx, niceMax): snap a value to the next
"nice" axis maximum `nice * 10^floor(log10 v)` with `nice` in 1, 2, 5, 10;
returns 1 when the argument is not positive. -/
def niceMax (v : ℚ) : ℚ :=
  if v ≤ 0 then 1
  else
    let pow10 : ℚ := (10 : ℚ) ^ (Int.log 10 v)
    let d := v / pow10
    let nice : ℚ := if d ≤ 1 then 1 else if d ≤ 2 then 2 else if d ≤ 5 then 5 else 10
    nice * pow10

/-- From source (DistributionForm.jsx line 311): `Math.max(...freqs, 1)`. -/
def maxF (freqs : List ℕ) : ℚ :=
  freqs.foldr (fun f a => max (f : ℚ) a) 1

/-- From source (DistributionForm.jsx line 312): the bar-height denominator. -/
def yMax (freqs : List ℕ) : ℚ := niceMax (maxF freqs)

/-- C10 counterexample: `niceMax` does NOT return a value `≥ 1` for every
input: at `v = 1/2` it returns `1/2 < 1` (branch `d = 5 ≤ 5`, scaled by
`10^(-1)`). -/
theorem niceMax_half_lt_one : niceMax (1 / 2) < 1 := by
  have hceil : ⌈((1 : ℚ) / 2)⁻¹⌉₊ = 2 := by norm_num
  have hlog : Int.log 10 ((1 : ℚ) / 2) = -1 := by
    rw [Int.log_of_right_le_one 10 (by norm_num), hceil,
      Nat.clog_eq_one (by norm_num) (by norm_num)]
    norm_num
  unfold niceMax
  rw [if_neg (by norm_num)]
  simp only [hlog]
  norm_num

theorem one_le_maxF (freqs : List ℕ) : 1 ≤ maxF freqs := by
  induction freqs with
  | nil => exact le_refl 1
  | cons f t ih => exact le_trans ih (le_max_right _ _)

theorem le_niceMax {v : ℚ} (hv : 0 < v) : v ≤ niceMax v := by
  unfold niceMax
  rw [if_neg (not_le.mpr hv)]
  dsimp only
  have hp : (0 : ℚ) < 10 ^ (Int.log 10 v) := zpow_pos (by norm_num) _
  have hlt : v < (10 : ℚ) ^ (Int.log 10 v + 1) := Int.lt_zpow_succ_log_self (by norm_num) v
  have hd10 : v / 10 ^ (Int.log 10 v) < 10 := by
    rw [div_lt_iff hp]
    calc v < 10 ^ (Int.log 10 v + 1) := hlt
      _ = 10 ^ (Int.log 10 v) * 10 := by rw [zpow_add_one₀ (by norm_num)]
      _ = 10 * 10 ^ (Int.log 10 v) := by ring
  by_cases h1 : v / 10 ^ (Int.log 10 v) ≤ 1
  · rw [if_pos h1, one_mul]
    exact (div_le_one hp).mp h1
  · rw [if_neg h1]
    by_cases h2 : v / 10 ^ (Int.log 10 v) ≤ 2
    · rw [if_pos h2]
      linarith [(div_le_iff hp).mp h2]
    · rw [if_neg h2]
      by_cases h5 : v / 10 ^ (Int.log 10 v) ≤ 5
      · rw [if_pos h5]
        linarith [(div_le_iff hp).mp h5]
      · rw [if_neg h5]
        linarith [(div_lt_iff hp).mp hd10]

/-- C10 amended: the chart never divides by zero, but for a weaker reason than
claimed: `niceMax` returns 1 on non-positive input and a value at least its
argument on positive input (not a value `≥ 1` on every input), and the scale
base is `maxF = Math.max(...freqs, 1) ≥ 1`, so the bar-height denominator
`yMax` is always `≥ 1 > 0` -- even when every bin frequency is 0. -/
theorem yMax_ge_one (freqs : List ℕ) :
    1 ≤ maxF freqs ∧ 1 ≤ yMax freqs
    ∧ (∀ v : ℚ, v ≤ 0 → niceMax v = 1)
    ∧ (∀ v : ℚ, 0 < v → v ≤ niceMax v) := by
  have hm := one_le_maxF freqs
  refine ⟨hm, le_trans hm (le_niceMax (lt_of_lt_of_le one_pos hm)), ?_, ?_⟩
  · intro v hv
    unfold niceMax
    rw [if_pos hv]
  · intro v hv
    exact le_niceMax hv

/-- C10 witness: at the all-zero histogram `[0, 0, 0]` the denominator is 1,
and `niceMax` is 1 at the non-positive input `-3`. -/
theorem yMax_ge_one_witness :
    1 ≤ yMax [0, 0, 0] ∧ niceMax (-3) = 1 ∧ (1 / 2 : ℚ) ≤ niceMax (1 / 2) :=
  ⟨(yMax_ge_one [0, 0, 0]).2.1, (yMax_ge_one []).2.2.1 (-3) (by norm_num),
    (yMax_ge_one []).2.2.2 (1 / 2) (by norm_num)⟩

/-! Histogram builder (spec section 4.4; the backend implementation is not in
the repository sources). -/

/-- One histogram row (spec section 3, Bin): 1-based index, edges, count,
relative and cumulative statistics. -/
structure Bin where
  index : ℕ
  lower : ℝ
  upper : ℝ
  freq : ℕ
  rel : ℝ
  cum : ℕ
  cumRel : ℝ

/-- Spec section 3, Histogram: bin count, the k+1 edges, and the k bins. -/
structure Histogram where
  k : ℕ
  edges : List ℝ
  bins : List Bin

noncomputable def listMin : List ℝ → ℝ
  | [] => 0
  | x :: xs => xs.foldl min x

noncomputable def listMax : List ℝ → ℝ
  | [] => 0
  | x :: xs => xs.foldl max x

/-- Modelled from the spec: section 4.4 step 1, the lower binning edge --
uniform uses `min(A, data min)`, exponential clamps to `min(0, data min)`,
normal uses the observed minimum. -/
noncomputable def histLower (d : DistParams) (sample : List ℝ) : ℝ :=
  match d with
  | .uniforme A _ => min (A : ℝ) (listMin sample)
  | .exponencial _ => min 0 (listMin sample)
  | .normal _ _ => listMin sample

/-- Modelled from the spec: section 4.4 step 1, the upper binning edge. -/
noncomputable def histUpper (d : DistParams) (sample : List ℝ) : ℝ :=
  match d with
  | .uniforme _ B => max (B : ℝ) (listMax sample)
  | _ => listMax sample

/-- Modelled from the spec: section 4.4 step 3, classification of a value into
`floor((v-lower)/(upper-lower)*k)` clamped to `[0, k-1]`. -/
noncomputable def binIndex (lower upper : ℝ) (k : ℕ) (v : ℝ) : ℕ :=
  min (k - 1) (Int.toNat ⌊(v - lower) / (upper - lower) * k⌋)

/-- Frequency of bin `j` (spec section 4.4 step 4). -/
noncomputable def binFreq (lower upper : ℝ) (k : ℕ) (sample : List ℝ) (j : ℕ) : ℕ :=
  sample.countP (fun v => decide (binIndex lower upper k v = j))

/-- Cumulative count through bin `j` (spec section 4.4 step 4). -/
noncomputable def binCum (lower upper : ℝ) (k : ℕ) (sample : List ℝ) (j : ℕ) : ℕ :=
  ((List.range (j + 1)).map (binFreq lower upper k sample)).sum

/-- Modelled from the spec: section 4.4's histogram builder -- equal-width
edges `edge[j] = lower + j*(upper-lower)/k`, per-bin frequency, `rel = freq/n`,
running `cum` and `cum_rel = cum/n`. -/
noncomputable def buildHistogram (d : DistParams) (sample : List ℝ) (k : ℕ) : Histogram :=
  let lower := histLower d sample
  let upper := histUpper d sample
  let w := (upper - lower) / k
  let n := sample.length
  { k := k
    edges := (List.range (k + 1)).map (fun j : ℕ => lower + (j : ℝ) * w)
    bins := (List.range k).map (fun j =>
      { index := j + 1
        lower := lower + j * w
        upper := lower + (j + 1) * w
        freq := binFreq lower upper k sample j
        rel := (binFreq lower upper k sample j : ℝ) / n
        cum := binCum lower upper k sample j
        cumRel := (binCum lower upper k sample j : ℝ) / n }) }

theorem sum_map_range {M : Type} [AddCommMonoid M] (g : ℕ → M) (k : ℕ) :
    ((List.range k).map g).sum = ∑ j in Finset.range k, g j := by
  induction k with
  | zero => simp
  | succ k ih =>
    rw [List.range_succ, List.map_append, List.sum_append, Finset.sum_range_succ, ih]
    simp

/-- Classifying every element of a list into one of `k` classes and summing the
class counts recovers the length of the list. -/
theorem sum_countP_classify {α : Type} (f : α → ℕ) (k : ℕ) (l : List α)
    (h : ∀ v ∈ l, f v < k) :
    ((List.range k).map (fun j => l.countP (fun v => decide (f v = j)))).sum = l.length := by
  rw [sum_map_range]
  induction l with
  | nil => simp
  | cons a t ih =>
    have hat : ∀ v ∈ t, f v < k := fun v hv => h v (List.mem_cons_of_mem _ hv)
    have hfa : f a < k := h a (List.mem_cons_self _ _)
    simp only [List.countP_cons, List.length_cons]
    rw [Finset.sum_add_distrib, ih hat]
    congr 1
    have hxe : ∀ j ∈ Finset.range k,
        (if decide (f a = j) = true then 1 else 0) = if j = f a then 1 else 0 := by
      intro j _
      by_cases hj : f a = j
      · simp [hj]
      · simp only [hj, decide_eq_true_eq, if_false]
        rw [if_neg (fun hcon => hj hcon.symm)]
    rw [Finset.sum_congr rfl hxe, Finset.sum_ite_eq' (Finset.range k) (f a) (fun _ => 1)]
    simp [Finset.mem_range.mpr hfa]

theorem binIndex_lt {lower upper : ℝ} {k : ℕ} (hk : 0 < k) (v : ℝ) :
    binIndex lower upper k v < k := by
  unfold binIndex
  have := min_le_left (k - 1) (Int.toNat ⌊(v - lower) / (upper - lower) * k⌋)
  omega

theorem binCum_mono {lower upper : ℝ} {k : ℕ} {sample : List ℝ} {i j : ℕ} (hij : i ≤ j) :
    binCum lower upper k sample i ≤ binCum lower upper k sample j := by
  unfold binCum
  rw [sum_map_range, sum_map_range]
  exact Finset.sum_le_sum_of_subset (Finset.range_subset.mpr (by omega))

theorem binCum_last {lower upper : ℝ} {k : ℕ} (hk : 0 < k) (sample : List ℝ) :
    binCum lower upper k sample (k - 1) = sample.length := by
  unfold binCum
  have hi : k - 1 + 1 = k := by omega
  rw [hi]
  exact sum_countP_classify (binIndex lower upper k) k sample
    (fun v _ => binIndex_lt hk v)

/-- C5: histogram invariants -- the bin frequencies sum to the number of
classified values, which by the clamped classification is the full sample
length `n`; the cumulative counts are non-decreasing in bin order; and the
relative cumulative of the last bin is exactly 1 (the floating tolerance of
the claim is not needed in the exact model). -/
theorem histogram_invariants (d : DistParams) (sample : List ℝ) (k : ℕ) (hk : 0 < k) :
    (((buildHistogram d sample k).bins.map Bin.freq).sum = sample.length)
    ∧ (∀ i j (hi : i < (buildHistogram d sample k).bins.length)
        (hj : j < (buildHistogram d sample k).bins.length), i ≤ j →
        ((buildHistogram d sample k).bins.get ⟨i, hi⟩).cum ≤
          ((buildHistogram d sample k).bins.get ⟨j, hj⟩).cum)
    ∧ (0 < sample.length →
        ∀ hl : k - 1 < (buildHistogram d sample k).bins.length,
        ((buildHistogram d sample k).bins.get ⟨k - 1, hl⟩).cumRel = 1) := by
  refine ⟨?_, ?_, ?_⟩
  · unfold buildHistogram
    dsimp only
    rw [List.map_map]
    have : (Bin.freq ∘ fun j =>
        ({ index := j + 1,
           lower := histLower d sample + j * ((histUpper d sample - histLower d sample) / k),
           upper := histLower d sample + (j + 1) * ((histUpper d sample - histLower d sample) / k),
           freq := binFreq (histLower d sample) (histUpper d sample) k sample j,
           rel := (binFreq (histLower d sample) (histUpper d sample) k sample j : ℝ) / sample.length,
           cum := binCum (histLower d sample) (histUpper d sample) k sample j,
           cumRel := (binCum (histLower d sample) (histUpper d sample) k sample j : ℝ) / sample.length } : Bin)) =
        fun j => sample.countP
          (fun v => decide (binIndex (histLower d sample) (histUpper d sample) k v = j)) := rfl
    rw [this]
    exact sum_countP_classify _ k sample (fun v _ => binIndex_lt hk v)
  · intro i j hi hj hij
    unfold buildHistogram at hi hj ⊢
    dsimp only at hi hj ⊢
    simp only [List.get_eq_getElem, List.getElem_map, List.getElem_range,
      List.length_map, List.length_range] at hi hj ⊢
    exact binCum_mono hij
  · intro hn hl
    unfold buildHistogram at hl ⊢
    dsimp only at hl ⊢
    simp only [List.get_eq_getElem, List.getElem_map, List.getElem_range,
      List.length_map, List.length_range] at hl ⊢
    rw [binCum_last hk]
    have hne : (sample.length : ℝ) ≠ 0 := by
      exact_mod_cast Nat.pos_iff_ne_zero.mp hn
    rw [div_self hne]

/-- C5 witness: concrete instance -- a singleton uniform sample, `k = 10`. -/
theorem histogram_invariants_witness :
    ((buildHistogram (.uniforme 0 1) [(1 : ℝ) / 2] 10).bins.map Bin.freq).sum = 1 := by
  have h := (histogram_invariants (.uniforme 0 1) [(1 : ℝ) / 2] 10 (by norm_num)).1
  simpa using h

/-! Exponential lower-edge clamp (C6).  The frontend performs a caller-side
normalization of the first edge for the exponential distribution; the theorem
shows it is a no-op on the engine's histogram, whose first edge is already 0. -/

/-- From source (part_001 lines 557-560, handleGoF): copy the edges and force
`edges[0] = 0` when the distribution is exponential. -/
noncomputable def edgesForGof (distribution : String) (edges : List ℝ) : List ℝ :=
  if distribution = "exponencial" then edges.set 0 0 else edges

/-- From source (part_001 lines 2232-2237, histogram table): the displayed
lower limit of row `i` is 0 for the first exponential row, else `edges[i]`. -/
noncomputable def tableLower (distribution : String) (i : ℕ) (edges : List ℝ) : ℝ :=
  if distribution = "exponencial" ∧ i = 0 then 0 else edges.getD i 0

theorem exp_value_nonneg {media : ℚ} (hm : 0 < media) (seed i : ℕ) :
    0 ≤ valueAt (.exponencial media) seed i := by
  show 0 ≤ -(media : ℝ) * Real.log (1 - ((draw seed i : ℚ) : ℝ))
  have hu0 : (0 : ℝ) ≤ ((draw seed i : ℚ) : ℝ) := by exact_mod_cast draw_nonneg seed i
  have hu1 : ((draw seed i : ℚ) : ℝ) < 1 := by exact_mod_cast draw_lt_one seed i
  have hlog : Real.log (1 - ((draw seed i : ℚ) : ℝ)) ≤ 0 :=
    Real.log_nonpos (by linarith) (by linarith)
  have hmr : (0 : ℝ) ≤ (media : ℚ) := by exact_mod_cast le_of_lt hm
  nlinarith

theorem foldl_min_le {c : ℝ} (l : List ℝ) :
    ∀ a : ℝ, c ≤ a → (∀ x ∈ l, c ≤ x) → c ≤ l.foldl min a := by
  induction l with
  | nil => intro a ha _; exact ha
  | cons x xs ih =>
    intro a ha hl
    exact ih (min a x) (le_min ha (hl x (List.mem_cons_self _ _)))
      (fun y hy => hl y (List.mem_cons_of_mem _ hy))

theorem listMin_nonneg {l : List ℝ} (h : ∀ x ∈ l, 0 ≤ x) : 0 ≤ listMin l := by
  cases l with
  | nil => exact le_refl 0
  | cons x xs =>
    exact foldl_min_le xs x (h x (List.mem_cons_self _ _))
      (fun y hy => h y (List.mem_cons_of_mem _ hy))

theorem buildHistogram_edges_head (d : DistParams) (sample : List ℝ) (k : ℕ) :
    (buildHistogram d sample k).edges.getD 0 0 = histLower d sample := by
  unfold buildHistogram
  dsimp only
  rw [List.range_succ_eq_map, List.map_cons, List.getD_cons_zero]
  push_cast
  ring

theorem buildHistogram_edges_length (d : DistParams) (sample : List ℝ) (k : ℕ) :
    (buildHistogram d sample k).edges.length = k + 1 := by
  unfold buildHistogram
  dsimp only
  rw [List.length_map, List.length_range]

theorem set_zero_of_head (l : List ℝ) (h0 : l.getD 0 0 = 0) (hne : l ≠ []) :
    l.set 0 0 = l := by
  cases l with
  | nil => exact absurd rfl hne
  | cons x xs =>
    simp only [List.getD_cons_zero] at h0
    rw [List.set_cons_zero, h0]

/-- C6: for an exponential request the engine's histogram already starts at 0:
the clamped lower edge makes `edges[0] = 0`, so the frontend's caller-side
corrections (`edgesForGof` and the table's first lower limit) are no-ops
on it. -/
theorem exp_histogram_starts_at_zero (media : ℚ) (n seed k : ℕ) (hm : 0 < media) :
    (buildHistogram (.exponencial media) (generatePage ⟨.exponencial media, n, seed⟩ 0 n) k).edges.getD 0 0 = 0
    ∧ edgesForGof "exponencial"
        (buildHistogram (.exponencial media) (generatePage ⟨.exponencial media, n, seed⟩ 0 n) k).edges =
      (buildHistogram (.exponencial media) (generatePage ⟨.exponencial media, n, seed⟩ 0 n) k).edges
    ∧ ∀ i, tableLower "exponencial" i
        (buildHistogram (.exponencial media) (generatePage ⟨.exponencial media, n, seed⟩ 0 n) k).edges =
      (buildHistogram (.exponencial media) (generatePage ⟨.exponencial media, n, seed⟩ 0 n) k).edges.getD i 0 := by
  have hvals : ∀ x ∈ generatePage ⟨.exponencial media, n, seed⟩ 0 n, (0 : ℝ) ≤ x := by
    intro x hx
    unfold generatePage at hx
    obtain ⟨i, _, rfl⟩ := List.mem_map.mp hx
    exact exp_value_nonneg hm seed i
  have hlower : histLower (.exponencial media) (generatePage ⟨.exponencial media, n, seed⟩ 0 n) = 0 := by
    unfold histLower
    exact min_eq_left (listMin_nonneg hvals)
  have hhead : (buildHistogram (.exponencial media)
      (generatePage ⟨.exponencial media, n, seed⟩ 0 n) k).edges.getD 0 0 = 0 := by
    rw [buildHistogram_edges_head, hlower]
  have hne : (buildHistogram (.exponencial media)
      (generatePage ⟨.exponencial media, n, seed⟩ 0 n) k).edges ≠ [] := by
    have := buildHistogram_edges_length (.exponencial media)
      (generatePage ⟨.exponencial media, n, seed⟩ 0 n) k
    intro hcon
    rw [hcon] at this
    simp at this
  refine ⟨hhead, ?_, ?_⟩
  · unfold edgesForGof
    rw [if_pos rfl, set_zero_of_head _ hhead hne]
  · intro i
    unfold tableLower
    cases i with
    | zero => rw [if_pos ⟨rfl, rfl⟩, hhead]
    | succ i => rw [if_neg (by simp)]

/-- C6 witness: concrete instance `media = 2`, `n = 5`, `k = 10`. -/
theorem exp_histogram_starts_at_zero_witness :
    (buildHistogram (.exponencial 2) (generatePage ⟨.exponencial 2, 5, 1⟩ 0 5) 10).edges.getD 0 0 = 0
    ∧ edgesForGof "exponencial"
        (buildHistogram (.exponencial 2) (generatePage ⟨.exponencial 2, 5, 1⟩ 0 5) 10).edges =
      (buildHistogram (.exponencial 2) (generatePage ⟨.exponencial 2, 5, 1⟩ 0 5) 10).edges := by
  have h := exp_histogram_starts_at_zero 2 5 1 10 (by norm_num)
  exact ⟨h.1, h.2.1⟩

/-! Goodness-of-fit tester (spec section 4.5; the backend implementation is
not in the repository sources). -/

/-- Spec section 3, GoFResult. -/
structure GoFResult where
  chi2 : ℝ
  df : ℕ
  critical : ℝ
  reject : Bool

/-- The standard normal cumulative distribution function. -/
noncomputable def stdNormalCdf (x : ℝ) : ℝ :=
  ∫ t in Set.Iic x, Real.exp (-(t ^ 2) / 2) / Real.sqrt (2 * Real.pi)

/-- Modelled from the spec: the fitted distribution's cumulative distribution
function used in section 4.5 step 1. -/
noncomputable def cdf (d : DistParams) (x : ℝ) : ℝ :=
  match d with
  | .uniforme A B => max 0 (min 1 ((x - A) / ((B : ℝ) - A)))
  | .exponencial media => if x ≤ 0 then 0 else 1 - Real.exp (-x / media)
  | .normal media desviacion => stdNormalCdf ((x - media) / desviacion)

/-- Modelled from the spec: section 4.5 step 1's lower edge of bin `i` -- the
first exponential bin is measured from the distribution's natural lower
bound 0, overriding the histogram's padded edge. -/
noncomputable def gofLowEdge (d : DistParams) (edges : List ℝ) (i : ℕ) : ℝ :=
  match d, i with
  | .exponencial _, 0 => 0
  | _, _ => edges.getD i 0

/-- Modelled from the spec: section 4.5 step 2, `expected_i = n * p_i`. -/
noncomputable def expectedCount (d : DistParams) (n : ℕ) (edges : List ℝ) (i : ℕ) : ℝ :=
  n * (cdf d (edges.getD (i + 1) 0) - cdf d (gofLowEdge d edges i))

/-- Modelled from the spec: section 4.5 step 3, the chi-square statistic over
the bins with positive expected count (bins with `expected_i ≤ 0` are
excluded from the sum). -/
noncomputable def gofChi2 (d : DistParams) (n : ℕ) (edges : List ℝ) (observed : List ℕ) : ℝ :=
  ∑ i in Finset.range observed.length,
    if 0 < expectedCount d n edges i then
      ((observed.getD i 0 : ℝ) - expectedCount d n edges i) ^ 2 / expectedCount d n edges i
    else 0

/-- Modelled from the spec: section 4.5's tester
`test(distribution, params, n, edges, observed, alpha) -> GoFResult` with
`df = k - 1` (step 4), `critical` the chi-square quantile at `1 - alpha` for
`df` (step 5) and `reject = chi2 > critical` (step 6).  The numerical
chi-square quantile routine is not part of the repository sources, so the
quantile function is a parameter `quant`. -/
noncomputable def gofTest (quant : ℕ → ℝ → ℝ) (d : DistParams) (n : ℕ)
    (edges : List ℝ) (observed : List ℕ) (alpha : ℝ) : GoFResult :=
  { chi2 := gofChi2 d n edges observed
    df := observed.length - 1
    critical := quant (observed.length - 1) (1 - alpha)
    reject := @decide (quant (observed.length - 1) (1 - alpha) < gofChi2 d n edges observed)
      (Classical.propDecidable _) }

/-- C7: every returned GoFResult has `chi2 ≥ 0`, `critical` equal to the
chi-square quantile function evaluated at `1 - alpha` with `df` degrees of
freedom, and `reject` true exactly when `chi2 > critical`. -/
theorem gof_result_spec (quant : ℕ → ℝ → ℝ) (d : DistParams) (n : ℕ)
    (edges : List ℝ) (observed : List ℕ) (alpha : ℝ) :
    0 ≤ (gofTest quant d n edges observed alpha).chi2
    ∧ (gofTest quant d n edges observed alpha).critical =
        quant (gofTest quant d n edges observed alpha).df (1 - alpha)
    ∧ ((gofTest quant d n edges observed alpha).reject = true ↔
        (gofTest quant d n edges observed alpha).chi2 >
          (gofTest quant d n edges observed alpha).critical) := by
  unfold gofTest
  dsimp only
  refine ⟨?_, rfl, ?_⟩
  · unfold gofChi2
    apply Finset.sum_nonneg
    intro i _
    by_cases he : 0 < expectedCount d n edges i
    · rw [if_pos he]
      exact div_nonneg (sq_nonneg _) (le_of_lt he)
    · rw [if_neg he]
  · constructor
    · exact fun h => of_decide_eq_true h
    · exact fun h => decide_eq_true h

end TP2
